import Mathlib

/-!
Verification of the workflow execution engine of the node-banana
repository (src/store/workflowStore.ts).  The TypeScript store is shallowly
embedded: node/edge/group data as Lean structures, the zustand store state as
an explicit `StoreState`, external services (image generation, LLM, grid
splitting, clock, stop requests) as an oracle `Env`, and the async
`executeWorkflow` loop as a state-passing function that also records the
observable events (node entries and service calls) of a run.
-/

namespace NodeBanana

/-- Node kinds, from `NodeType` in types.ts.  The annotation kind is named
`annot` here. -/
inductive NodeType
  | imageInput
  | annot
  | prompt
  | nanoBanana
  | styleTransfer
  | llmGenerate
  | splitGrid
  | output
deriving DecidableEq, Repr

/-- Node status, from `NodeStatus` in types.ts. -/
inductive NodeStatus
  | idle
  | loading
  | complete
  | error
deriving DecidableEq, Repr

/-- One carousel history entry, from the object literal built in
`executeWorkflow` (workflowStore.ts:1031).  The history stores IDs only,
not the image payload. -/
structure HistItem where
  id : String
  timestamp : Nat
  prompt : String
  aspectRatio : String
  model : String
deriving DecidableEq, Repr

/-- One global history entry, from `addToGlobalHistory` (workflowStore.ts:1814).
The randomly generated `id` string is not modelled. -/
structure GlobalHistItem where
  image : String
  timestamp : Nat
  prompt : String
  aspectRatio : String
  model : String
deriving DecidableEq, Repr

/-- The union of the per-kind node `data` payloads (types.ts), flattened into
one record, mirroring the dynamic record that `updateNodeData` merges partial
updates onto.  Fields irrelevant to a kind simply keep their defaults. -/
structure NodeData where
  image : Option String := none
  filename : Option String := none
  dimensions : Option (Nat × Nat) := none
  sourceImage : Option String := none
  outputImage : Option String := none
  prompt : String := ""
  outputText : Option String := none
  inputImages : List String := []
  inputPrompt : Option String := none
  aspectRatio : String := "1:1"
  resolution : String := "1K"
  model : String := "nano-banana-pro"
  useGoogleSearch : Bool := false
  provider : String := "google"
  temperature : Rat := ⟨7, 10, by decide, by decide⟩
  maxTokens : Nat := 8192
  status : NodeStatus := .idle
  error : Option String := none
  imageHistory : List HistItem := []
  selectedHistoryIndex : Nat := 0
  isConfigured : Bool := false
  gridRows : Nat := 2
  gridCols : Nat := 3
  childNodeIds : List String := []
deriving DecidableEq, Repr

/-- A workflow node (`WorkflowNode`). -/
structure Node where
  id : String
  type : NodeType
  groupId : Option String := none
  data : NodeData
deriving DecidableEq, Repr

/-- A workflow edge (`WorkflowEdge`).  `hasPause` models `edge.data?.hasPause`
(truthy check). -/
structure Edge where
  id : String := ""
  source : String
  sourceHandle : Option String := none
  target : String
  targetHandle : Option String := none
  hasPause : Bool := false
deriving DecidableEq, Repr

/-- A node group (`NodeGroup`). -/
structure NodeGroup where
  id : String
  name : String := ""
  locked : Bool := false
deriving DecidableEq, Repr

/-- The slice of the zustand store state that the execution engine reads and
writes (workflowStore.ts). -/
structure StoreState where
  nodes : List Node
  edges : List Edge
  groups : List (String × NodeGroup) := []
  isRunning : Bool := false
  currentNodeId : Option String := none
  pausedAtNodeId : Option String := none
  globalImageHistory : List GlobalHistItem := []
  incurredCost : Int := 0
  hasUnsavedChanges : Bool := false
deriving DecidableEq, Repr

/-- JavaScript truthiness on an optional string: `null`, `undefined` and the
empty string are falsy. -/
def truthyStr : Option String → Option String
  | some s => if s = "" then none else some s
  | none => none

/-- `updateNodeData` (workflowStore.ts:384): merge a partial payload onto the
data of every node with the given id and mark the workflow dirty.  The
partial-record merge is rendered as a field patch function. -/
def updateNodeData (s : StoreState) (nodeId : String) (patch : NodeData → NodeData) :
    StoreState :=
  { s with
    nodes := s.nodes.map fun n =>
      if n.id == nodeId then { n with data := patch n.data } else n
    hasUnsavedChanges := true }

/-- `stopWorkflow` (workflowStore.ts:1342). -/
def stopWorkflow (s : StoreState) : StoreState :=
  { s with isRunning := false, currentNodeId := none }

/-- `addIncurredCost` (workflowStore.ts:1961); the external `saveIncurredCost`
persistence step does not change the store. -/
def addIncurredCost (s : StoreState) (cost : Int) : StoreState :=
  { s with incurredCost := s.incurredCost + cost }

/-- The result record of `getConnectedInputs`. -/
structure ResolvedInputs where
  images : List String
  text : Option String
deriving DecidableEq, Repr

/-- Is a target handle image-class for the resolver?  From
`handleId === "image" || !handleId` (workflowStore.ts:718): the exact handle
`"image"`, a missing handle, or the falsy empty-string handle. -/
def isImageHandle (h : Option String) : Bool :=
  h == some "image" || h == none || h == some ""

/-- The image block of the `forEach` body of `getConnectedInputs`
(workflowStore.ts:718-730): on an image-class handle, append the source
node's current image output, if truthy. -/
def imageStep (nodes : List Node) (acc : ResolvedInputs) (e : Edge) : ResolvedInputs :=
  match nodes.find? (fun n => n.id == e.source) with
  | none => acc
  | some src =>
    if isImageHandle e.targetHandle then
      match src.type with
      | .imageInput =>
        match truthyStr src.data.image with
        | some img => { acc with images := acc.images ++ [img] }
        | none => acc
      | .annot =>
        match truthyStr src.data.outputImage with
        | some img => { acc with images := acc.images ++ [img] }
        | none => acc
      | .nanoBanana =>
        match truthyStr src.data.outputImage with
        | some img => { acc with images := acc.images ++ [img] }
        | none => acc
      | _ => acc
    else acc

/-- The text block of the `forEach` body of `getConnectedInputs`
(workflowStore.ts:732-738): on the `"text"` handle, overwrite the single
text slot with the source node's text output. -/
def textStep (nodes : List Node) (acc : ResolvedInputs) (e : Edge) : ResolvedInputs :=
  match nodes.find? (fun n => n.id == e.source) with
  | none => acc
  | some src =>
    if e.targetHandle == some "text" then
      match src.type with
      | .prompt => { acc with text := some src.data.prompt }
      | .llmGenerate => { acc with text := src.data.outputText }
      | _ => acc
    else acc

/-- One step of the `forEach` body of `getConnectedInputs`
(workflowStore.ts:712-739), processing a single incoming edge: the image
block followed by the text block (the two blocks touch disjoint fields). -/
def inputStep (nodes : List Node) (acc : ResolvedInputs) (e : Edge) : ResolvedInputs :=
  textStep nodes (imageStep nodes acc e) e

/-- `getConnectedInputs` (workflowStore.ts:705-742): fold the step over the
edges whose target is the node, in edge-array order. -/
def getConnectedInputs (nodes : List Node) (edges : List Edge) (nodeId : String) :
    ResolvedInputs :=
  (edges.filter fun e => e.target == nodeId).foldl (inputStep nodes) ⟨[], none⟩

/-- The image a single incoming edge contributes to the resolver's list: the
source node's current image output, provided the edge's target handle is
image-class, the source node exists, and its image field is truthy. -/
def imageContrib (nodes : List Node) (e : Edge) : Option String :=
  match nodes.find? (fun n => n.id == e.source) with
  | none => none
  | some src =>
    if isImageHandle e.targetHandle then
      match src.type with
      | .imageInput => truthyStr src.data.image
      | .annot => truthyStr src.data.outputImage
      | .nanoBanana => truthyStr src.data.outputImage
      | _ => none
    else none

/-- The overwrite a single incoming edge performs on the resolver's single
text slot. -/
def textUpd (nodes : List Node) (e : Edge) (t : Option String) : Option String :=
  match nodes.find? (fun n => n.id == e.source) with
  | none => t
  | some src =>
    if e.targetHandle == some "text" then
      match src.type with
      | .prompt => some src.data.prompt
      | .llmGenerate => src.data.outputText
      | _ => t
    else t

/-- The text output of a node, as the resolver's text block reads it. -/
def textOutputOf (n : Node) : Option String :=
  match n.type with
  | .prompt => some n.data.prompt
  | .llmGenerate => n.data.outputText
  | _ => none

/-- The incoming edges of a node whose target handle the resolver treats as
image-class. -/
def imageClassEdges (edges : List Edge) (nodeId : String) : List Edge :=
  (edges.filter fun e => e.target == nodeId).filter fun e => isImageHandle e.targetHandle

/-! ## The depth-first topological sort of `executeWorkflow`
(workflowStore.ts:818-845). -/

/-- The mutable sorting state of the sort: the `sorted` output array and the
`visited` / `visiting` marker sets. -/
structure SortState where
  sorted : List Node := []
  visited : List String := []
  visiting : List String := []
deriving DecidableEq, Repr

/-- Sort failure: the thrown "Cycle detected in workflow" error, or exhaustion
of the fuel that makes the unbounded TS recursion structurally total (proved
unreachable below). -/
inductive SortErr
  | cycle
  | fuelOut
deriving DecidableEq, Repr

/-- One pass of the recursive `visit` of `executeWorkflow`
(workflowStore.ts:823-842) over a work list of node ids, parameterized by the
function `deepVisit` used for the recursive descent into a node's
dependencies: `visitList nodes edges dv (id :: rest) st` performs TS
`visit(id)` — with `dv` standing for the inner
`edges.filter(...).forEach(e => visit(e.source))` — and then continues with
`rest`, so that the top-level `nodes.forEach(node => visit(node.id))` is the
same walk. -/
def visitList (nodes : List Node) (edges : List Edge)
    (deepVisit : List String → SortState → Except SortErr SortState) :
    List String → SortState → Except SortErr SortState
  | [], st => .ok st
  | nodeId :: rest, st =>
    if nodeId ∈ st.visited then visitList nodes edges deepVisit rest st
    else if nodeId ∈ st.visiting then .error .cycle
    else
      match deepVisit ((edges.filter fun e => e.target == nodeId).map fun e => e.source)
          { st with visiting := nodeId :: st.visiting } with
      | .error e => .error e
      | .ok st2 =>
        let st3 : SortState :=
          { st2 with
            visiting := st2.visiting.erase nodeId
            visited := nodeId :: st2.visited }
        match nodes.find? (fun n => n.id == nodeId) with
        | some node =>
          visitList nodes edges deepVisit rest { st3 with sorted := st3.sorted ++ [node] }
        | none => visitList nodes edges deepVisit rest st3

/-- The fueled closure of `visitList`: `fuel` bounds only the depth of the
recursive descent (the unbounded TS recursion), and is spent exclusively when
descending into the dependencies of a not-yet-visited node; it is proved
sufficient below. -/
def visitAll (nodes : List Node) (edges : List Edge) :
    Nat → List String → SortState → Except SortErr SortState
  | 0 => visitList nodes edges fun _ _ => .error .fuelOut
  | fuel + 1 => visitList nodes edges (visitAll nodes edges fuel)

/-- The full sort (workflowStore.ts:844-845): visit every node in array order.
The fuel exceeds the number of ids that can ever be simultaneously `visiting`,
which is proved sufficient below. -/
def topoSort (nodes : List Node) (edges : List Edge) : Except SortErr (List Node) :=
  (visitAll nodes edges (nodes.length + edges.length + 1) (nodes.map fun n => n.id)
      ⟨[], [], []⟩).map fun st => st.sorted

/-! ## The execution run of `executeWorkflow` (workflowStore.ts:797-1340). -/

/-- Outcome of one call to an external HTTP JSON API (`/api/generate` or
`/api/llm`): a non-ok HTTP response carrying the computed error message, a
thrown exception carrying the message computed by the surrounding catch, or a
parsed JSON body `{success, image-or-text, error}`. -/
inductive ApiResult
  | httpError (msg : String)
  | thrown (msg : String)
  | json (success : Bool) (payload : Option String) (err : Option String)
deriving DecidableEq, Repr

/-- Outcome of `splitWithDimensions`: the split cell images, or a thrown
exception. -/
inductive SplitResult
  | ok (images : List String)
  | thrown (msg : String)
deriving DecidableEq, Repr

/-- The request payload sent to `/api/generate` (workflowStore.ts:963-970). -/
structure GenRequest where
  images : List String
  prompt : String
  aspectRatio : String
  resolution : String
  model : String
  useGoogleSearch : Bool
deriving DecidableEq, Repr

/-- The external world of one run: responses of the generation, LLM and
grid-split services, image-load results for split cells, the clock, the
injected pricing table, and stop requests.  `stop i = true` means a
`stopWorkflow` call arrives (during the preceding await) before loop
iteration `i` performs its `isRunning` check.  Each external interaction
consumes the next index of the shared counter. -/
structure Env where
  gen : Nat → ApiResult
  llm : Nat → ApiResult
  split : Nat → SplitResult
  imgLoad : Nat → Option (Nat × Nat)
  now : Nat → Nat
  price : String → String → Int
  stop : Nat → Bool

/-- Observable events of a run: entering a node's switch case (the
`set({currentNodeId})` + "Executing node" log), and the three kinds of external
service calls. -/
inductive Event
  | enter (nodeId : String)
  | genCall (nodeId : String) (req : GenRequest)
  | llmCall (nodeId : String)
  | splitCall (nodeId : String)
deriving DecidableEq, Repr

/-- The accumulator threaded through the run: the live store, the event trace,
and the external-interaction counter. -/
structure RunAcc where
  st : StoreState
  events : List Event := []
  k : Nat := 0
deriving DecidableEq, Repr

/-- One of the node-level `return` statements inside the loop: the run halts
with the node put in error state and the run flags cleared
(e.g. workflowStore.ts:944-950). -/
def failRun (acc : RunAcc) (nodeId : String) (msg : String) : RunAcc :=
  let st := updateNodeData acc.st nodeId fun d => { d with status := .error, error := some msg }
  { acc with st := { st with isRunning := false, currentNodeId := none } }

/-- Result of executing one node's switch case: continue with the next node,
or halt the whole run (a `return` inside the loop body). -/
inductive StepRes
  | cont (acc : RunAcc)
  | halt (acc : RunAcc)
deriving Repr

/-- The `img.onload` population of one split cell
(workflowStore.ts:1257-1275): write the cell image, a deterministic
`split-row-col.png` filename and the loaded dimensions into the child
image-input node; a load error leaves the child untouched. -/
def loadSplitCell (env : Env) (cols : Nat) (idx : Nat) (childId : String)
    (img : String) (acc : RunAcc) : RunAcc :=
  match env.imgLoad acc.k with
  | some dims =>
    { acc with
      st := updateNodeData acc.st childId fun d =>
        { d with
          image := some img
          filename := some ("split-" ++ toString (idx / cols + 1) ++ "-" ++
            toString (idx % cols + 1) ++ ".png")
          dimensions := some dims }
      k := acc.k + 1 }
  | none => { acc with k := acc.k + 1 }

/-- The `for` loop over `childNodeIds` in the splitGrid case
(workflowStore.ts:1257-1275). -/
def populateSplitChildren (env : Env) (cols : Nat) (splitImages : List String) :
    Nat → List String → RunAcc → RunAcc
  | _, [], acc => acc
  | idx, childId :: rest, acc =>
    let acc :=
      match truthyStr (splitImages.get? idx) with
      | some img => loadSplitCell env cols idx childId img acc
      | none => acc
    populateSplitChildren env cols splitImages (idx + 1) rest acc

/-- The success path of the nanoBanana case (workflowStore.ts:1017-1050):
push the artifact to the global history, prepend one carousel history item
(built from the snapshot history), reset the selected index, store the output
image, mark complete, and accrue one pricing lookup. -/
def applyGenSuccess (node : Node) (p img : String) (timestamp : Nat) (price : Int)
    (st : StoreState) : StoreState :=
  let st := { st with globalImageHistory :=
    ⟨img, timestamp, p, node.data.aspectRatio, node.data.model⟩ ::
      st.globalImageHistory }
  let newItem : HistItem :=
    ⟨toString timestamp, timestamp, p, node.data.aspectRatio, node.data.model⟩
  let st := updateNodeData st node.id fun d =>
    { d with outputImage := some img, status := .complete, error := none,
             imageHistory := newItem :: node.data.imageHistory,
             selectedHistoryIndex := 0 }
  addIncurredCost st price

/-- The switch over `node.type` in the loop body of `executeWorkflow`
(workflowStore.ts:911-1301).  `node` is the snapshot node from the sorted
array (its `data` is the pre-run snapshot), while inputs are resolved against
the live store in `acc.st`. -/
def execNode (env : Env) (node : Node) (acc : RunAcc) : StepRes :=
  match node.type with
  | .imageInput => .cont acc
  | .prompt => .cont acc
  | .styleTransfer => .cont acc
  | .annot =>
    let inputs := getConnectedInputs acc.st.nodes acc.st.edges node.id
    match truthyStr inputs.images.head? with
    | some img =>
      let acc := { acc with st := updateNodeData acc.st node.id fun d =>
        { d with sourceImage := some img } }
      match truthyStr node.data.outputImage with
      | none => .cont { acc with st := updateNodeData acc.st node.id fun d =>
          { d with outputImage := some img } }
      | some _ => .cont acc
    | none => .cont acc
  | .nanoBanana =>
    let inputs := getConnectedInputs acc.st.nodes acc.st.edges node.id
    match inputs.images, truthyStr inputs.text with
    | [], _ => .halt (failRun acc node.id "Missing image or text input")
    | _ :: _, none => .halt (failRun acc node.id "Missing image or text input")
    | img0 :: imgRest, some p =>
      let images := img0 :: imgRest
      let acc := { acc with st := updateNodeData acc.st node.id fun d =>
        { d with inputImages := images, inputPrompt := some p,
                 status := .loading, error := none } }
      let req : GenRequest :=
        { images := images, prompt := p, aspectRatio := node.data.aspectRatio,
          resolution := node.data.resolution, model := node.data.model,
          useGoogleSearch := node.data.useGoogleSearch }
      let acc := { acc with events := acc.events ++ [Event.genCall node.id req] }
      let k0 := acc.k
      let acc := { acc with k := k0 + 1 }
      match env.gen k0 with
      | .httpError msg => .halt (failRun acc node.id msg)
      | .thrown msg => .halt (failRun acc node.id msg)
      | .json success payload err =>
        match success, truthyStr payload with
        | true, some img =>
          .cont { acc with
            st := applyGenSuccess node p img (env.now k0)
              (env.price node.data.model node.data.resolution) acc.st }
        | _, _ =>
          .halt (failRun acc node.id ((truthyStr err).getD "Generation failed"))
  | .llmGenerate =>
    let inputs := getConnectedInputs acc.st.nodes acc.st.edges node.id
    match truthyStr inputs.text with
    | none => .halt (failRun acc node.id "Missing text input")
    | some p =>
      let acc := { acc with st := updateNodeData acc.st node.id fun d =>
        { d with inputPrompt := some p, inputImages := inputs.images,
                 status := .loading, error := none } }
      let acc := { acc with events := acc.events ++ [Event.llmCall node.id] }
      let k0 := acc.k
      let acc := { acc with k := k0 + 1 }
      match env.llm k0 with
      | .httpError msg => .halt (failRun acc node.id msg)
      | .thrown msg => .halt (failRun acc node.id msg)
      | .json success payload err =>
        match success, truthyStr payload with
        | true, some t =>
          .cont { acc with st := updateNodeData acc.st node.id fun d =>
            { d with outputText := some t, status := .complete, error := none } }
        | _, _ =>
          .halt (failRun acc node.id ((truthyStr err).getD "LLM generation failed"))
  | .splitGrid =>
    let inputs := getConnectedInputs acc.st.nodes acc.st.edges node.id
    match truthyStr inputs.images.head? with
    | none => .halt (failRun acc node.id "No input image connected")
    | some srcImg =>
      if node.data.isConfigured = false then
        .halt (failRun acc node.id "Node not configured - open settings first")
      else
        let acc := { acc with st := updateNodeData acc.st node.id fun d =>
          { d with sourceImage := some srcImg, status := .loading, error := none } }
        let acc := { acc with events := acc.events ++ [Event.splitCall node.id] }
        let k0 := acc.k
        let acc := { acc with k := k0 + 1 }
        match env.split k0 with
        | .thrown msg => .halt (failRun acc node.id msg)
        | .ok splitImages =>
          let acc := populateSplitChildren env node.data.gridCols splitImages 0
            node.data.childNodeIds acc
          .cont { acc with st := updateNodeData acc.st node.id fun d =>
            { d with status := .complete, error := none } }
  | .output =>
    let inputs := getConnectedInputs acc.st.nodes acc.st.edges node.id
    match truthyStr inputs.images.head? with
    | some img =>
      .cont { acc with st := updateNodeData acc.st node.id fun d =>
        { d with image := some img } }
    | none => .cont acc

/-- `node.groupId ? groups[node.groupId] : null` followed by
`nodeGroup?.locked` (workflowStore.ts:893-894): whether the node sits in a
locked group of the snapshot. -/
def lockedOf (groups : List (String × NodeGroup)) (node : Node) : Bool :=
  ((match truthyStr node.groupId with
    | some gid => (groups.find? fun (g : String × NodeGroup) => g.1 == gid).map Prod.snd
    | none => none).map
      fun (g : NodeGroup) => g.locked).getD false

/-- `incomingEdges.find((e) => e.data?.hasPause)` (workflowStore.ts:864-865):
whether some snapshot edge into the node carries the pause flag. -/
def hasPauseEdge (edges : List Edge) (node : Node) : Bool :=
  edges.any fun e => e.target == node.id && e.hasPause

/-- The `for` loop of `executeWorkflow` (workflowStore.ts:857-1302) over the
remaining snapshot nodes, with `i` the absolute iteration index.  A pending
external `stopWorkflow` request (`env.stop i`) lands before the iteration's
`isRunning` check; `edges` and `groups` are the snapshot taken at run start.
Falling off the end of the loop runs the completion code
(workflowStore.ts:1304-1305). -/
def runIter (env : Env) (edges : List Edge) (groups : List (String × NodeGroup))
    (isResuming : Bool) (startFromNodeId : Option String) (node : Node) (acc : RunAcc) :
    StepRes :=
  if acc.st.isRunning = false then
    -- `break` (workflowStore.ts:859) followed by the completion code.
    .halt { acc with st := { acc.st with isRunning := false, currentNodeId := none } }
  else if !(isResuming && startFromNodeId == some node.id) && hasPauseEdge edges node then
    -- pause (workflowStore.ts:862-889)
    .halt { acc with st := { acc.st with
      pausedAtNodeId := some node.id, isRunning := false, currentNodeId := none } }
  else if lockedOf groups node then
    -- locked-group skip (workflowStore.ts:892-902): `continue`, no state change
    .cont acc
  else
    -- enter the node (workflowStore.ts:904-909) and run its switch case
    execNode env node
      { acc with
        st := { acc.st with currentNodeId := some node.id }
        events := acc.events ++ [Event.enter node.id] }

def runLoop (env : Env) (edges : List Edge) (groups : List (String × NodeGroup))
    (isResuming : Bool) (startFromNodeId : Option String) :
    Nat → List Node → RunAcc → RunAcc
  | _, [], acc =>
    { acc with st := { acc.st with isRunning := false, currentNodeId := none } }
  | i, node :: rest, acc =>
    match runIter env edges groups isResuming startFromNodeId node
        (if env.stop i then { acc with st := stopWorkflow acc.st } else acc) with
    | .halt acc' => acc'
    | .cont acc' => runLoop env edges groups isResuming startFromNodeId (i + 1) rest acc'

/-- `executeWorkflow` (workflowStore.ts:797-1340): guard against a run already
in flight, compute `isResuming` (a strict `===` comparison, false when either
side is absent), set the run flags, sort, locate the optional entry node, and
run the loop; a sort exception lands in the top-level catch
(workflowStore.ts:1321-1339). -/
def executeWorkflow (env : Env) (startFromNodeId : Option String) (s : StoreState) :
    RunAcc :=
  if s.isRunning then ⟨s, [], 0⟩
  else
    let isResuming := match startFromNodeId, s.pausedAtNodeId with
      | some a, some b => a == b
      | _, _ => false
    let s1 := { s with isRunning := true, pausedAtNodeId := none }
    match topoSort s.nodes s.edges with
    | .error _ => ⟨{ s1 with isRunning := false, currentNodeId := none }, [], 0⟩
    | .ok sorted =>
      let startIndex := match truthyStr startFromNodeId with
        | some sid =>
          match sorted.findIdx? fun n => n.id == sid with
          | some j => j
          | none => 0
        | none => 0
      runLoop env s.edges s.groups isResuming startFromNodeId startIndex
        (sorted.drop startIndex) ⟨s1, [], 0⟩

/-! ## Graph-theoretic vocabulary for the sort claims. -/

/-- A nonempty directed path along the edge array. -/
inductive Reach (edges : List Edge) : String → String → Prop
  | single {e : Edge} : e ∈ edges → Reach edges e.source e.target
  | tail {e : Edge} {c : String} : e ∈ edges → Reach edges e.target c →
      Reach edges e.source c

/-- A graph snapshot is acyclic when no id reaches itself along a nonempty
edge path. -/
def Acyclic (edges : List Edge) : Prop := ∀ a, ¬ Reach edges a a

/-- Index of the first node carrying the given id (list length if absent). -/
def posOf (l : List Node) (id : String) : Nat := l.findIdx fun n => n.id == id

/-- `a` occurs strictly before `b` in `l`. -/
def Before (l : List Node) (a b : Node) : Prop :=
  ∃ l1 l2, l = l1 ++ b :: l2 ∧ a ∈ l1

/-- The sort invariant maintained by the visit walk: the output array contains
exactly the visited nodes, once each, and every edge whose target is already
in the output has its source placed strictly before it. -/
structure SInv (nodes : List Node) (edges : List Edge) (st : SortState) : Prop where
  mem : ∀ n ∈ st.sorted, n ∈ nodes
  nodup : (st.sorted.map Node.id).Nodup
  vis_iff : ∀ n ∈ nodes, (n.id ∈ st.visited ↔ n ∈ st.sorted)
  order : ∀ e ∈ edges, ∀ t ∈ st.sorted, t.id = e.target →
    ∀ s ∈ nodes, s.id = e.source → Before st.sorted s t

/-- Postcondition of a successful visit walk over `ids`: the `visiting` marker
set is restored, `visited` only grows (by ids not on the current descent
path, and including all of `ids`), the output array only grows by appending,
and the sort invariant is preserved (given unique node ids). -/
structure SortPost (nodes : List Node) (edges : List Edge)
    (ids : List String) (st st' : SortState) : Prop where
  visiting_eq : st'.visiting = st.visiting
  visited_mono : ∀ x ∈ st.visited, x ∈ st'.visited
  ids_visited : ∀ id ∈ ids, id ∈ st'.visited
  visited_new : ∀ x ∈ st'.visited, x ∈ st.visited ∨ x ∉ st.visiting
  sorted_ext : ∃ l, st'.sorted = st.sorted ++ l
  inv : (nodes.map Node.id).Nodup → SInv nodes edges st → SInv nodes edges st'

/-! ## Concrete fixtures used by witnesses and counterexamples. -/

/-- An image-input node already holding an image. -/
def mkImageInput (id img : String) : Node :=
  { id := id, type := .imageInput, data := { image := some img } }

/-- A prompt node with a fixed prompt text. -/
def mkPrompt (id p : String) : Node :=
  { id := id, type := .prompt, data := { prompt := p } }

/-- An image-generate (nanoBanana) node with default settings. -/
def mkNano (id : String) : Node :=
  { id := id, type := .nanoBanana, data := {} }

/-- An edge between two nodes with a given target handle. -/
def mkEdge (s t : String) (h : Option String) : Edge :=
  { source := s, target := t, targetHandle := h }

/-- An environment whose generate service always answers `g`, with a trivial
clock, a constant pricing table and no stop requests. -/
def constEnv (g : ApiResult) : Env :=
  { gen := fun _ => g
    llm := fun _ => ApiResult.json true (some "text-out") none
    split := fun _ => SplitResult.ok []
    imgLoad := fun _ => none
    now := fun k => k
    price := fun _ _ => 134
    stop := fun _ => false }

/-- C4 counterexample fixture: an image-bearing image-input node feeding the
`content` handle of a style-transfer node. -/
def c4Nodes : List Node :=
  [mkImageInput "a" "IMG", { id := "b", type := .styleTransfer, data := {} }]

/-- The single `content`-handle edge of the C4 counterexample. -/
def c4Edges : List Edge := [mkEdge "a" "b" (some "content")]

/-- C4 witness fixture: two image-bearing sources feeding a generate node
over the `image` handle and a missing handle. -/
def c4wNodes : List Node := [mkImageInput "a" "I1", mkImageInput "c" "I2", mkNano "t"]

/-- The two image-class edges of the C4 witness fixture. -/
def c4wEdges : List Edge := [mkEdge "a" "t" (some "image"), mkEdge "c" "t" none]

/-- C5 fixture: two prompt nodes both feeding the text handle of a generate
node. -/
def c5Nodes : List Node :=
  [mkPrompt "p1" "first", mkPrompt "p2" "second", mkNano "t"]

/-- The two text edges of the C5 fixture, in array order. -/
def c5Edges : List Edge := [mkEdge "p1" "t" (some "text"), mkEdge "p2" "t" (some "text")]

/-- A small runnable workflow: image-input and prompt feeding a generate
node. -/
def runNodes : List Node := [mkImageInput "a" "I", mkPrompt "p" "draw", mkNano "g"]

/-- The edges of the runnable workflow. -/
def runEdges : List Edge := [mkEdge "a" "g" (some "image"), mkEdge "p" "g" (some "text")]

/-- The runnable workflow with the image edge flagged `hasPause`. -/
def pauseEdges : List Edge :=
  [{ mkEdge "a" "g" (some "image") with hasPause := true }, mkEdge "p" "g" (some "text")]

/-- A store holding the runnable workflow, idle. -/
def runState : StoreState := { nodes := runNodes, edges := runEdges }

/-- The paused store of the pause fixture: the previous pass stopped before
node `g`. -/
def pausedState : StoreState :=
  { nodes := runNodes, edges := pauseEdges, pausedAtNodeId := some "g" }

/-- First-run environment for the two-run scenario: generation succeeds with
image "G1" at clock 5; every pricing lookup costs 7. -/
def c8Env1 : Env :=
  { constEnv (ApiResult.json true (some "G1") none) with now := fun _ => 5, price := fun _ _ => 7 }

/-- Second-run environment: generation succeeds with image "G2" at clock 9. -/
def c8Env2 : Env :=
  { constEnv (ApiResult.json true (some "G2") none) with now := fun _ => 9, price := fun _ _ => 7 }

/-- The store after the first successful run of the two-run scenario,
written out explicitly. -/
def c8MidState : StoreState :=
  { nodes := [mkImageInput "a" "I", mkPrompt "p" "draw",
      { mkNano "g" with data := { (mkNano "g").data with
          inputImages := ["I"], inputPrompt := some "draw",
          outputImage := some "G1", status := .complete, error := none,
          imageHistory := [⟨"5", 5, "draw", "1:1", "nano-banana-pro"⟩],
          selectedHistoryIndex := 0 } }]
    edges := runEdges
    isRunning := false
    globalImageHistory := [⟨"G1", 5, "draw", "1:1", "nano-banana-pro"⟩]
    incurredCost := 7
    hasUnsavedChanges := true }

/-- An environment that stops the run before loop iteration 1. -/
def stopEnv : Env :=
  { constEnv (ApiResult.json true (some "ximg") none) with stop := fun i => i == 1 }

/-- An accumulator mid-run: the store is live with `isRunning` set. -/
def midRunAcc : RunAcc :=
  ⟨{ nodes := runNodes, edges := runEdges, isRunning := true }, [], 0⟩

/-! ## Theorems: the input resolver (claims C4, C5). -/

theorem imageStep_images (nodes : List Node) (acc : ResolvedInputs) (e : Edge) :
    (imageStep nodes acc e).images = acc.images ++ (imageContrib nodes e).toList := by
  unfold imageStep imageContrib
  cases nodes.find? (fun n => n.id == e.source) with
  | none => simp
  | some src =>
    by_cases h : isImageHandle e.targetHandle
    · simp only [h, if_true]
      cases src.type <;> simp <;>
        (cases truthyStr src.data.image <;> cases truthyStr src.data.outputImage <;> simp)
    · simp [h]

theorem imageStep_text (nodes : List Node) (acc : ResolvedInputs) (e : Edge) :
    (imageStep nodes acc e).text = acc.text := by
  unfold imageStep
  cases nodes.find? (fun n => n.id == e.source) with
  | none => rfl
  | some src =>
    by_cases h : isImageHandle e.targetHandle
    · simp only [h, if_true]
      cases src.type <;> simp <;>
        (cases truthyStr src.data.image <;> cases truthyStr src.data.outputImage <;> simp)
    · simp [h]

theorem textStep_images (nodes : List Node) (acc : ResolvedInputs) (e : Edge) :
    (textStep nodes acc e).images = acc.images := by
  unfold textStep
  cases nodes.find? (fun n => n.id == e.source) with
  | none => rfl
  | some src =>
    by_cases h : (e.targetHandle == some "text")
    · simp only [h, if_true]
      cases src.type <;> simp
    · simp [h]

theorem textStep_text (nodes : List Node) (acc : ResolvedInputs) (e : Edge) :
    (textStep nodes acc e).text = textUpd nodes e acc.text := by
  unfold textStep textUpd
  cases nodes.find? (fun n => n.id == e.source) with
  | none => rfl
  | some src =>
    by_cases h : (e.targetHandle == some "text")
    · simp only [h, if_true]
      cases src.type <;> simp
    · simp [h]

theorem foldl_inputStep_images (nodes : List Node) :
    ∀ (l : List Edge) (acc : ResolvedInputs),
      (l.foldl (inputStep nodes) acc).images =
        acc.images ++ l.filterMap (imageContrib nodes) := by
  intro l
  induction l with
  | nil => intro acc; simp
  | cons e l ih =>
    intro acc
    rw [List.foldl_cons, ih, List.filterMap_cons, inputStep, textStep_images,
      imageStep_images]
    cases imageContrib nodes e <;> simp

theorem foldl_inputStep_text (nodes : List Node) :
    ∀ (l : List Edge) (acc : ResolvedInputs),
      (l.foldl (inputStep nodes) acc).text =
        l.foldl (fun t e => textUpd nodes e t) acc.text := by
  intro l
  induction l with
  | nil => intro acc; rfl
  | cons e l ih =>
    intro acc
    rw [List.foldl_cons, ih, List.foldl_cons, inputStep, textStep_text, imageStep_text]

theorem imageContrib_nonimage (nodes : List Node) (e : Edge)
    (h : isImageHandle e.targetHandle = false) : imageContrib nodes e = none := by
  unfold imageContrib
  cases nodes.find? (fun n => n.id == e.source) with
  | none => rfl
  | some src => simp [h]

theorem filterMap_imageContrib_filter (nodes : List Node) :
    ∀ l : List Edge,
      (l.filter fun e => isImageHandle e.targetHandle).filterMap (imageContrib nodes) =
        l.filterMap (imageContrib nodes) := by
  intro l
  induction l with
  | nil => rfl
  | cons e l ih =>
    by_cases h : isImageHandle e.targetHandle
    · simp only [List.filter_cons, h, if_true, List.filterMap_cons, ih]
    · have hn : isImageHandle e.targetHandle = false := by
        simpa using h
      simp only [List.filter_cons, hn, List.filterMap_cons,
        imageContrib_nonimage nodes e hn]
      exact ih

theorem length_filterMap_of_isSome {α β : Type} (f : α → Option β) :
    ∀ l : List α, (∀ a ∈ l, (f a).isSome) → (l.filterMap f).length = l.length := by
  intro l
  induction l with
  | nil => intro _; rfl
  | cons a l ih =>
    intro h
    have ha := h a (by simp)
    rcases hfa : f a with _ | b
    · rw [hfa] at ha; simp at ha
    · simp only [List.filterMap_cons, hfa, List.length_cons]
      rw [ih fun x hx => h x (by simp [hx])]

theorem textUpd_nontext (nodes : List Node) (e : Edge) (t : Option String)
    (h : (e.targetHandle == some "text") = false) : textUpd nodes e t = t := by
  unfold textUpd
  cases nodes.find? (fun n => n.id == e.source) with
  | none => rfl
  | some src => simp [h]

theorem foldl_textUpd_filter (nodes : List Node) :
    ∀ (l : List Edge) (t0 : Option String),
      l.foldl (fun t e => textUpd nodes e t) t0 =
        (l.filter fun e => e.targetHandle == some "text").foldl
          (fun t e => textUpd nodes e t) t0 := by
  intro l
  induction l with
  | nil => intro t0; rfl
  | cons e l ih =>
    intro t0
    by_cases h : (e.targetHandle == some "text")
    · simp only [List.foldl_cons, List.filter_cons, h, if_true, ih]
    · have hn : (e.targetHandle == some "text") = false := by simpa using h
      simp only [List.foldl_cons, List.filter_cons, hn, textUpd_nontext nodes e t0 hn, ih]
      simp [textUpd_nontext nodes e t0 hn]

/-- C4 (counterexample): with one incoming edge into the `content` handle
(an image-class role per the claim) from a source that does carry an image,
the resolver returns an empty list instead of the claimed N = 1 elements:
`getConnectedInputs` only collects handles `"image"` / absent, so `content`
and `style` edges contribute nothing. -/
theorem c4_counterexample :
    ((c4Edges.filter fun e => e.target == "b").filter fun e =>
        e.targetHandle == some "image" || e.targetHandle == none ||
        e.targetHandle == some "content" || e.targetHandle == some "style").length = 1 ∧
    (getConnectedInputs c4Nodes c4Edges "b").images.length = 0 := by
  decide

/-- C4 (amended): the resolver's image list consists of exactly the images
contributed, in edge-array order, by the incoming edges whose target handle is
`"image"` or absent and whose source node exists and carries a truthy image
output; edges into the `content` and `style` handles contribute nothing.  In
particular, when every such image-class edge has an image-bearing source, the
list has exactly one element per image-class edge. -/
theorem c4_resolver_images (nodes : List Node) (edges : List Edge) (nodeId : String) :
    (getConnectedInputs nodes edges nodeId).images =
      (imageClassEdges edges nodeId).filterMap (imageContrib nodes) ∧
    ((∀ e ∈ imageClassEdges edges nodeId, (imageContrib nodes e).isSome) →
      (getConnectedInputs nodes edges nodeId).images.length =
        (imageClassEdges edges nodeId).length) := by
  have h1 : (getConnectedInputs nodes edges nodeId).images =
      (imageClassEdges edges nodeId).filterMap (imageContrib nodes) := by
    unfold getConnectedInputs imageClassEdges
    rw [foldl_inputStep_images, filterMap_imageContrib_filter]
    simp
  refine ⟨h1, fun hall => ?_⟩
  rw [h1]
  exact length_filterMap_of_isSome _ _ hall

/-- C4 (witness): on the two-image fixture both image-class edges have
image-bearing sources and the resolver list has exactly 2 elements. -/
theorem c4_resolver_images_witness :
    (∀ e ∈ imageClassEdges c4wEdges "t", (imageContrib c4wNodes e).isSome) ∧
    (getConnectedInputs c4wNodes c4wEdges "t").images.length =
      (imageClassEdges c4wEdges "t").length :=
  ⟨by decide, (c4_resolver_images c4wNodes c4wEdges "t").2 (by decide)⟩

/-- C5: when two or more incoming edges target a node's text handle, the
resolved text equals the text output of the source of the last such edge in
edge-array order (provided that source exists and is a text-producing node);
earlier text-edge values are discarded. -/
theorem c5_last_text_edge_wins (nodes : List Node) (edges : List Edge) (nodeId : String)
    (l1 : List Edge) (e : Edge) (src : Node)
    (htext : ((edges.filter fun e => e.target == nodeId).filter
        fun e => e.targetHandle == some "text") = l1 ++ [e])
    (_hmulti : l1 ≠ [])
    (hsrc : nodes.find? (fun n => n.id == e.source) = some src)
    (htype : src.type = .prompt ∨ src.type = .llmGenerate) :
    (getConnectedInputs nodes edges nodeId).text = textOutputOf src := by
  have he : e ∈ (edges.filter fun e => e.target == nodeId).filter
      (fun e => e.targetHandle == some "text") := by
    rw [htext]; simp
  have hhandle : (e.targetHandle == some "text") = true := (List.mem_filter.mp he).2
  unfold getConnectedInputs
  rw [foldl_inputStep_text, foldl_textUpd_filter, htext, List.foldl_append]
  simp only [List.foldl_cons, List.foldl_nil]
  unfold textUpd textOutputOf
  rw [hsrc]
  rcases htype with h | h <;> simp [h, hhandle]

/-- C5 (witness): on the two-prompt fixture the resolved text is the second
prompt's text, the first being discarded. -/
theorem c5_last_text_edge_wins_witness :
    (getConnectedInputs c5Nodes c5Edges "t").text =
      textOutputOf (mkPrompt "p2" "second") :=
  c5_last_text_edge_wins c5Nodes c5Edges "t" [mkEdge "p1" "t" (some "text")]
    (mkEdge "p2" "t" (some "text")) (mkPrompt "p2" "second")
    (by decide) (by decide) (by decide) (Or.inl rfl)

/-! ## Theorems: the run loop (claims C3, C6, C7, C8, C9, C10). -/

theorem failRun_flags (acc : RunAcc) (nodeId msg : String) :
    (failRun acc nodeId msg).st.isRunning = false ∧
    (failRun acc nodeId msg).st.currentNodeId = none :=
  ⟨rfl, rfl⟩

theorem failRun_events (acc : RunAcc) (nodeId msg : String) :
    (failRun acc nodeId msg).events = acc.events := rfl

theorem failRun_k (acc : RunAcc) (nodeId msg : String) :
    (failRun acc nodeId msg).k = acc.k := rfl

theorem execNode_halt_flags (env : Env) (node : Node) (acc acc' : RunAcc)
    (h : execNode env node acc = .halt acc') :
    acc'.st.isRunning = false ∧ acc'.st.currentNodeId = none := by
  unfold execNode at h
  split at h <;>
    (repeat' first
      | split at h
      | dsimp only at h) <;>
    first
      | (cases h; exact ⟨rfl, rfl⟩)
      | exact absurd h (by simp)

theorem populateSplitChildren_events (env : Env) (cols : Nat) (imgs : List String) :
    ∀ (l : List String) (idx : Nat) (acc : RunAcc),
      (populateSplitChildren env cols imgs idx l acc).events = acc.events := by
  intro l
  induction l with
  | nil => intro idx acc; rfl
  | cons c l ih =>
    intro idx acc
    rw [populateSplitChildren]
    split
    · rw [ih]
      unfold loadSplitCell
      split <;> rfl
    · rw [ih]

/-- The state reached by a step result, whichever way the step ended. -/
def stepAcc : StepRes → RunAcc
  | .cont a => a
  | .halt a => a

theorem execNode_events_mono (env : Env) (node : Node) (acc : RunAcc) :
    ∃ t, (stepAcc (execNode env node acc)).events = acc.events ++ t := by
  unfold execNode
  split <;>
    (repeat' first
      | split
      | dsimp only) <;>
    first
      | exact ⟨_, rfl⟩
      | exact ⟨_, by simp only [stepAcc, populateSplitChildren_events]; rfl⟩
      | exact ⟨[], (List.append_nil _).symm⟩

theorem runIter_halt_flags (env : Env) (edges : List Edge)
    (groups : List (String × NodeGroup)) (isR : Bool) (sfn : Option String)
    (node : Node) (acc acc' : RunAcc)
    (h : runIter env edges groups isR sfn node acc = .halt acc') :
    acc'.st.isRunning = false ∧ acc'.st.currentNodeId = none := by
  unfold runIter at h
  split at h
  · cases h; exact ⟨rfl, rfl⟩
  · split at h
    · cases h; exact ⟨rfl, rfl⟩
    · split at h
      · exact absurd h (by simp)
      · exact execNode_halt_flags env node _ acc' h

theorem runIter_events_mono (env : Env) (edges : List Edge)
    (groups : List (String × NodeGroup)) (isR : Bool) (sfn : Option String)
    (node : Node) (acc : RunAcc) :
    ∃ t, (stepAcc (runIter env edges groups isR sfn node acc)).events =
      acc.events ++ t := by
  unfold runIter
  split
  · exact ⟨[], by simp [stepAcc]⟩
  · split
    · exact ⟨[], by simp [stepAcc]⟩
    · split
      · exact ⟨[], by simp [stepAcc]⟩
      · obtain ⟨t, ht⟩ := execNode_events_mono env node
          { acc with
            st := { acc.st with currentNodeId := some node.id }
            events := acc.events ++ [Event.enter node.id] }
        exact ⟨[Event.enter node.id] ++ t, by rw [ht]; simp⟩

theorem stopIfReq_events (env : Env) (i : Nat) (acc : RunAcc) :
    (if env.stop i then { acc with st := stopWorkflow acc.st } else acc).events =
      acc.events := by
  split <;> rfl

theorem runLoop_flags (env : Env) (edges : List Edge) (groups : List (String × NodeGroup))
    (isR : Bool) (sfn : Option String) :
    ∀ (rest : List Node) (i : Nat) (acc : RunAcc),
      (runLoop env edges groups isR sfn i rest acc).st.isRunning = false ∧
      (runLoop env edges groups isR sfn i rest acc).st.currentNodeId = none := by
  intro rest
  induction rest with
  | nil => intro i acc; exact ⟨rfl, rfl⟩
  | cons node rest ih =>
    intro i acc
    rw [runLoop]
    split
    · next acc' heq => exact runIter_halt_flags env edges groups isR sfn node _ acc' heq
    · exact ih ..

theorem runLoop_events_mono (env : Env) (edges : List Edge)
    (groups : List (String × NodeGroup)) (isR : Bool) (sfn : Option String) :
    ∀ (rest : List Node) (i : Nat) (acc : RunAcc),
      ∃ t, (runLoop env edges groups isR sfn i rest acc).events = acc.events ++ t := by
  intro rest
  induction rest with
  | nil => intro i acc; exact ⟨[], by simp [runLoop]⟩
  | cons node rest ih =>
    intro i acc
    rw [runLoop]
    obtain ⟨t1, ht1⟩ := runIter_events_mono env edges groups isR sfn node
      (if env.stop i then { acc with st := stopWorkflow acc.st } else acc)
    rw [stopIfReq_events] at ht1
    split
    · next acc' heq =>
      rw [heq] at ht1
      exact ⟨t1, ht1⟩
    · next acc' heq =>
      rw [heq] at ht1
      simp only [stepAcc] at ht1
      obtain ⟨t2, ht2⟩ := ih (i + 1) acc'
      exact ⟨t1 ++ t2, by rw [ht2, ht1, List.append_assoc]⟩

/-- C10: on every exit path of `executeWorkflow` — normal completion, pause at
a pause edge, any node-level validation or service failure, and a sort
exception caught at the top level — the store ends with `isRunning = false`
and `currentNodeId = null`.  (The hypothesis excludes only the
already-running guard, which exits without starting a run.) -/
theorem c10_flags_cleared_on_exit (env : Env) (sfn : Option String) (s : StoreState)
    (h : s.isRunning = false) :
    (executeWorkflow env sfn s).st.isRunning = false ∧
    (executeWorkflow env sfn s).st.currentNodeId = none := by
  unfold executeWorkflow
  rw [if_neg (by simp [h])]
  dsimp only
  repeat' split
  all_goals first
    | exact ⟨rfl, rfl⟩
    | exact runLoop_flags env s.edges s.groups _ _ _ _ _

/-- C10 (witness): a concrete run on the runnable fixture ends with the flags
cleared. -/
theorem c10_flags_cleared_on_exit_witness :
    runState.isRunning = false ∧
    ((executeWorkflow (constEnv (ApiResult.json true (some "ximg") none)) none
        runState).st.isRunning = false ∧
     (executeWorkflow (constEnv (ApiResult.json true (some "ximg") none)) none
        runState).st.currentNodeId = none) :=
  ⟨rfl, c10_flags_cleared_on_exit (constEnv (ApiResult.json true (some "ximg") none))
    none runState rfl⟩

/-- C9: a `stopWorkflow` request landing after node `i` completes and before
iteration `i+1`'s between-nodes `isRunning` check makes the loop end at once:
the remaining nodes are never entered (no new events), no node changes state,
and the run flags are cleared.  The running flag is checked only between
nodes. -/
theorem c9_stop_between_nodes (env : Env) (edges : List Edge)
    (groups : List (String × NodeGroup)) (isR : Bool) (sfn : Option String)
    (i : Nat) (rest : List Node) (acc : RunAcc)
    (hstop : env.stop i = true) :
    runLoop env edges groups isR sfn i rest acc =
      { acc with st := { acc.st with isRunning := false, currentNodeId := none } } ∧
    (runLoop env edges groups isR sfn i rest acc).events = acc.events ∧
    (runLoop env edges groups isR sfn i rest acc).st.nodes = acc.st.nodes := by
  have hE : runLoop env edges groups isR sfn i rest acc =
      { acc with st := { acc.st with isRunning := false, currentNodeId := none } } := by
    cases rest with
    | nil => rw [runLoop]
    | cons node rest =>
      rw [runLoop, if_pos hstop, runIter, if_pos (by simp [stopWorkflow])]
      rfl
  exact ⟨hE, by rw [hE], by rw [hE]⟩

/-- C9 (witness): a stop request before iteration 1 of the fixture loop
leaves the trace and nodes untouched. -/
theorem c9_stop_between_nodes_witness :
    stopEnv.stop 1 = true ∧
    runLoop stopEnv runEdges [] false none 1 [mkNano "g"] midRunAcc =
      { midRunAcc with st :=
        { midRunAcc.st with isRunning := false, currentNodeId := none } } :=
  ⟨by decide, (c9_stop_between_nodes stopEnv runEdges [] false none 1 [mkNano "g"]
    midRunAcc (by decide)).1⟩

/-- C7: a node of the snapshot order that lies in a locked group is skipped
entirely: the loop on `node :: rest` equals the loop on `rest` with the
accumulator unchanged — no state change, no status transition, no events —
so downstream nodes resolve the node's pre-run output from the live store. -/
theorem c7_locked_group_skip (env : Env) (edges : List Edge)
    (groups : List (String × NodeGroup)) (isR : Bool) (sfn : Option String)
    (i : Nat) (node : Node) (rest : List Node) (acc : RunAcc)
    (hrun : acc.st.isRunning = true)
    (hstop : env.stop i = false)
    (hpause : (!(isR && sfn == some node.id) && hasPauseEdge edges node) = false)
    (hlock : lockedOf groups node = true) :
    runLoop env edges groups isR sfn i (node :: rest) acc =
      runLoop env edges groups isR sfn (i + 1) rest acc := by
  rw [runLoop, if_neg (by simp [hstop]), runIter, if_neg (by simp [hrun]),
    if_neg (by rw [hpause]; simp), if_pos hlock]

/-- C7 (witness): a locked generate node is skipped and the loop continues
with the rest of the order. -/
theorem c7_locked_group_skip_witness :
    lockedOf [("grp", { id := "grp", locked := true })]
      { mkNano "g" with groupId := some "grp" } = true ∧
    runLoop stopEnv runEdges [("grp", { id := "grp", locked := true })] false none 0
      [{ mkNano "g" with groupId := some "grp" }] midRunAcc =
      runLoop stopEnv runEdges [("grp", { id := "grp", locked := true })] false none 1
        [] midRunAcc :=
  ⟨by decide, c7_locked_group_skip stopEnv runEdges _ false none 0 _ [] midRunAcc
    (by decide) (by decide) (by decide) (by decide)⟩

theorem runLoop_enters_head (env : Env) (edges : List Edge)
    (groups : List (String × NodeGroup)) (isR : Bool) (sfn : Option String)
    (i : Nat) (node : Node) (rest : List Node) (acc : RunAcc)
    (hrun : acc.st.isRunning = true)
    (hstop : env.stop i = false)
    (hpause : (!(isR && sfn == some node.id) && hasPauseEdge edges node) = false)
    (hlock : lockedOf groups node = false) :
    ∃ t, (runLoop env edges groups isR sfn i (node :: rest) acc).events =
      acc.events ++ [Event.enter node.id] ++ t := by
  rw [runLoop, if_neg (by simp [hstop]), runIter, if_neg (by simp [hrun]),
    if_neg (by rw [hpause]; simp), if_neg (by simp [hlock])]
  have hmono := execNode_events_mono env node
    { acc with
      st := { acc.st with currentNodeId := some node.id }
      events := acc.events ++ [Event.enter node.id] }
  split
  · next acc' heq =>
    rw [heq] at hmono
    simp only [stepAcc] at hmono
    obtain ⟨t, ht⟩ := hmono
    exact ⟨t, ht⟩
  · next acc' heq =>
    rw [heq] at hmono
    simp only [stepAcc] at hmono
    obtain ⟨t1, ht1⟩ := hmono
    obtain ⟨t2, ht2⟩ := runLoop_events_mono env edges groups isR sfn rest (i + 1) acc'
    exact ⟨t1 ++ t2, by rw [ht2, ht1, List.append_assoc]⟩

/-- C6: pause edges.  First part: a node with an incoming `hasPause` snapshot
edge that is not the exact resume entry is never entered in the pass that
reaches it — the loop stops there, records the node id as `pausedAtNodeId`
and clears `isRunning`, with no new events and no node change.  Second part: a
subsequent `start` naming that exact node as entry while it is the recorded
pause point enters and executes it — the pause re-check is skipped for that
one node (no hypothesis about its pause edges is needed); any other node is
still governed by the first part. -/
theorem c6_pause_edge_and_resume (env : Env) :
    (∀ (edges : List Edge) (groups : List (String × NodeGroup)) (isR : Bool)
        (sfn : Option String) (i : Nat) (node : Node) (rest : List Node) (acc : RunAcc),
      acc.st.isRunning = true →
      env.stop i = false →
      (!(isR && sfn == some node.id) && hasPauseEdge edges node) = true →
      runLoop env edges groups isR sfn i (node :: rest) acc =
        { acc with st := { acc.st with
            pausedAtNodeId := some node.id
            isRunning := false
            currentNodeId := none } }) ∧
    (∀ (s : StoreState) (nid : String) (sorted : List Node) (j : Nat)
        (node : Node) (rest : List Node),
      s.isRunning = false →
      s.pausedAtNodeId = some nid →
      nid ≠ "" →
      topoSort s.nodes s.edges = .ok sorted →
      (sorted.findIdx? fun n => n.id == nid) = some j →
      sorted.drop j = node :: rest →
      node.id = nid →
      env.stop j = false →
      lockedOf s.groups node = false →
      ∃ t, (executeWorkflow env (some nid) s).events = Event.enter nid :: t) := by
  constructor
  · intro edges groups isR sfn i node rest acc hrun hstop hpause
    rw [runLoop, if_neg (by simp [hstop]), runIter, if_neg (by simp [hrun]),
      if_pos hpause]
  · intro s nid sorted j node rest hrun hpaused hne hsort hidx hdrop hnid hstop hlock
    unfold executeWorkflow
    rw [if_neg (by simp [hrun])]
    dsimp only
    rw [hpaused, hsort]
    dsimp only
    simp only [truthyStr, if_neg hne, hidx, hdrop, beq_self_eq_true]
    obtain ⟨t, ht⟩ := runLoop_enters_head env s.edges s.groups true (some nid) j node
      rest ⟨{ s with isRunning := true, pausedAtNodeId := none }, [], 0⟩ rfl hstop
      (by simp [hnid]) hlock
    refine ⟨t, ?_⟩
    rw [hnid] at ht
    simpa using ht

/-- C6 (witness): on the pause fixture, a fresh pass pauses before the
generate node with no events, and a resume naming it as entry enters it. -/
theorem c6_pause_edge_and_resume_witness :
    (runLoop (constEnv (ApiResult.json true (some "ximg") none)) pauseEdges [] false none
        2 [mkNano "g"] ⟨{ pausedState with isRunning := true, pausedAtNodeId := none },
          [Event.enter "a"], 0⟩ =
      { st := { pausedState with
          isRunning := false
          pausedAtNodeId := some "g"
          currentNodeId := none }
        events := [Event.enter "a"]
        k := 0 }) ∧
    (∃ t, (executeWorkflow (constEnv (ApiResult.json true (some "ximg") none))
        (some "g") pausedState).events = Event.enter "g" :: t) := by
  constructor
  · have h := (c6_pause_edge_and_resume
      (constEnv (ApiResult.json true (some "ximg") none))).1 pauseEdges [] false none 2
      (mkNano "g") [] ⟨{ pausedState with isRunning := true, pausedAtNodeId := none },
        [Event.enter "a"], 0⟩ (by decide) (by decide) (by decide)
    exact h.trans (by decide)
  · exact (c6_pause_edge_and_resume
      (constEnv (ApiResult.json true (some "ximg") none))).2 pausedState "g"
      [mkImageInput "a" "I", mkPrompt "p" "draw", mkNano "g"] 2 (mkNano "g") []
      (by decide) (by decide) (by decide) (by rfl) (by decide) (by decide)
      (by decide) (by decide) (by decide)

/-- C3: an image-generate (nanoBanana) node whose resolved inputs have an
empty image list or a falsy text fails the whole run at that node: its status
becomes `error` with exactly the message "Missing image or text input", the
loop returns at once (no later node of the order is entered), and no call to
the image generation service is made (the trace gains only the node entry). -/
theorem c3_nano_missing_input_fails_run (env : Env) (edges : List Edge)
    (groups : List (String × NodeGroup)) (isR : Bool) (sfn : Option String)
    (i : Nat) (node : Node) (rest : List Node) (acc : RunAcc)
    (htype : node.type = .nanoBanana)
    (hrun : acc.st.isRunning = true)
    (hstop : env.stop i = false)
    (hpause : (!(isR && sfn == some node.id) && hasPauseEdge edges node) = false)
    (hlock : lockedOf groups node = false)
    (hmiss : (getConnectedInputs acc.st.nodes acc.st.edges node.id).images = [] ∨
      truthyStr (getConnectedInputs acc.st.nodes acc.st.edges node.id).text = none) :
    runLoop env edges groups isR sfn i (node :: rest) acc =
      { st := { (updateNodeData acc.st node.id fun d =>
            { d with status := .error, error := some "Missing image or text input" }) with
          isRunning := false, currentNodeId := none }
        events := acc.events ++ [Event.enter node.id]
        k := acc.k } := by
  rw [runLoop, if_neg (by simp [hstop]), runIter, if_neg (by simp [hrun]),
    if_neg (by rw [hpause]; simp), if_neg (by simp [hlock])]
  unfold execNode
  simp only [htype]
  try dsimp only
  rcases hmiss with hm | hm
  · simp only [hm]
    rfl
  · cases himg : (getConnectedInputs acc.st.nodes acc.st.edges node.id).images with
    | nil =>
      simp only [himg]
      rfl
    | cons a l =>
      simp only [himg, hm]
      rfl

/-- C3 (witness): a generate node with a connected prompt but no image input
errors with the exact message, halts the run before the rest of the order and
performs no generation call. -/
theorem c3_nano_missing_input_fails_run_witness :
    runLoop (constEnv (ApiResult.json true (some "ximg") none))
        [mkEdge "p" "g" (some "text")] [] false none 0 [mkNano "g", mkPrompt "p2" "x"]
        ⟨{ nodes := [mkPrompt "p" "draw", mkNano "g"],
           edges := [mkEdge "p" "g" (some "text")], isRunning := true }, [], 0⟩ =
      { st := { (updateNodeData
            { nodes := [mkPrompt "p" "draw", mkNano "g"],
              edges := [mkEdge "p" "g" (some "text")], isRunning := true } "g" fun d =>
            { d with status := .error, error := some "Missing image or text input" }) with
          isRunning := false, currentNodeId := none }
        events := [Event.enter "g"], k := 0 } :=
  c3_nano_missing_input_fails_run (constEnv (ApiResult.json true (some "ximg") none))
    [mkEdge "p" "g" (some "text")] [] false none 0 (mkNano "g") [mkPrompt "p2" "x"]
    ⟨{ nodes := [mkPrompt "p" "draw", mkNano "g"],
       edges := [mkEdge "p" "g" (some "text")], isRunning := true }, [], 0⟩
    rfl (by decide) (by decide) (by decide) (by decide) (Or.inl (by decide))

theorem applyGenSuccess_nodes_mem (node : Node) (p img : String) (ts : Nat)
    (price : Int) (st : StoreState) (n : Node)
    (hn : n ∈ (applyGenSuccess node p img ts price st).nodes)
    (hid : n.id = node.id) :
    n.data.imageHistory = ⟨toString ts, ts, p, node.data.aspectRatio, node.data.model⟩ ::
      node.data.imageHistory ∧
    n.data.selectedHistoryIndex = 0 ∧ n.data.status = .complete ∧
    n.data.outputImage = some img := by
  unfold applyGenSuccess addIncurredCost updateNodeData at hn
  dsimp only at hn
  rw [List.mem_map] at hn
  obtain ⟨m, hm, heq⟩ := hn
  by_cases h : (m.id == node.id)
  · rw [if_pos h] at heq
    rw [← heq]
    exact ⟨rfl, rfl, rfl, rfl⟩
  · rw [if_neg h] at heq
    rw [← heq] at hid
    exact absurd hid (by simpa using h)

set_option maxHeartbeats 4000000 in
/-- C8: generation history and cost.  First part, fully general: a successful
nanoBanana execution appends exactly one generation call to the trace,
prepends exactly one carousel history item (newest first) built from the
run-start snapshot, resets `selectedHistoryIndex` to 0, stores the output
image, and adds exactly one pricing-table lookup for the node's snapshot
(model, resolution) to the cost total.  Second part, the two-run scenario on
the concrete fixture: after two successful runs the carousel history has the
two items newest first, the selected index is 0, and the incurred cost is the
sum of the two pricing lookups. -/
theorem c8_success_history_and_cost (env : Env) :
    (∀ (node : Node) (acc : RunAcc) (img0 : String) (imgs : List String)
        (p img : String) (err : Option String),
      node.type = .nanoBanana →
      getConnectedInputs acc.st.nodes acc.st.edges node.id = ⟨img0 :: imgs, some p⟩ →
      p ≠ "" →
      env.gen acc.k = .json true (some img) err →
      img ≠ "" →
      ∃ a, execNode env node acc = .cont a ∧
        a.events = acc.events ++ [Event.genCall node.id
          ⟨img0 :: imgs, p, node.data.aspectRatio, node.data.resolution,
            node.data.model, node.data.useGoogleSearch⟩] ∧
        a.k = acc.k + 1 ∧
        a.st.incurredCost = acc.st.incurredCost +
          env.price node.data.model node.data.resolution ∧
        (∀ n ∈ a.st.nodes, n.id = node.id →
          n.data.imageHistory = ⟨toString (env.now acc.k), env.now acc.k, p,
            node.data.aspectRatio, node.data.model⟩ :: node.data.imageHistory ∧
          n.data.selectedHistoryIndex = 0 ∧ n.data.status = .complete ∧
          n.data.outputImage = some img)) ∧
    ((∀ n ∈ (executeWorkflow c8Env2 none
        (executeWorkflow c8Env1 none runState).st).st.nodes, n.id = "g" →
      n.data.imageHistory =
        [⟨"9", 9, "draw", "1:1", "nano-banana-pro"⟩,
         ⟨"5", 5, "draw", "1:1", "nano-banana-pro"⟩] ∧
      n.data.selectedHistoryIndex = 0) ∧
     (executeWorkflow c8Env2 none
        (executeWorkflow c8Env1 none runState).st).st.incurredCost =
       c8Env1.price "nano-banana-pro" "1K" + c8Env2.price "nano-banana-pro" "1K") := by
  constructor
  · intro node acc img0 imgs p img err htype hinp hp hgen himg
    unfold execNode
    simp only [htype]
    try dsimp only
    simp only [hinp]
    try dsimp only
    simp only [truthyStr, if_neg hp]
    try dsimp only
    rw [hgen]
    try dsimp only
    simp only [truthyStr, if_neg himg]
    refine ⟨_, rfl, rfl, rfl, rfl, ?_⟩
    intro n hn hid
    exact applyGenSuccess_nodes_mem node p img (env.now acc.k)
      (env.price node.data.model node.data.resolution) _ n hn hid
  · have h1 : (executeWorkflow c8Env1 none runState).st = c8MidState := by decide
    rw [h1]
    constructor
    · decide
    · decide

/-- C8 (witness): the general part instantiated on the fixture's generate
node mid-run. -/
theorem c8_success_history_and_cost_witness :
    ∃ a, execNode c8Env1 (mkNano "g") midRunAcc = .cont a ∧
      a.events = [Event.genCall "g" ⟨["I"], "draw", "1:1", "1K", "nano-banana-pro", false⟩] ∧
      a.k = 1 ∧
      a.st.incurredCost = 0 + c8Env1.price "nano-banana-pro" "1K" ∧
      (∀ n ∈ a.st.nodes, n.id = (mkNano "g").id →
        n.data.imageHistory = [⟨"5", 5, "draw", "1:1", "nano-banana-pro"⟩] ∧
        n.data.selectedHistoryIndex = 0 ∧ n.data.status = .complete ∧
        n.data.outputImage = some "G1") :=
  (c8_success_history_and_cost c8Env1).1 (mkNano "g") midRunAcc "I" [] "draw" "G1" none
    rfl (by decide) (by decide) (by decide) (by decide)

/-! ## Theorems: the topological sort (claims C1, C2). -/

theorem Before_append {l : List Node} {a b : Node} (x : Node) (h : Before l a b) :
    Before (l ++ [x]) a b := by
  obtain ⟨l1, l2, hl, ha⟩ := h
  exact ⟨l1, l2 ++ [x], by rw [hl, List.append_assoc, List.cons_append], ha⟩

theorem id_inj (nodes : List Node) (hids : (nodes.map Node.id).Nodup)
    {a b : Node} (ha : a ∈ nodes) (hb : b ∈ nodes) (h : a.id = b.id) : a = b := by
  induction nodes with
  | nil => cases ha
  | cons c l ih =>
    rw [List.map_cons, List.nodup_cons] at hids
    rcases List.mem_cons.mp ha with rfl | ha' <;>
      rcases List.mem_cons.mp hb with rfl | hb'
    · rfl
    · exact absurd (h ▸ List.mem_map_of_mem Node.id hb') hids.1
    · exact absurd (h ▸ List.mem_map_of_mem Node.id ha') hids.1
    · exact ih hids.2 ha' hb'

theorem SInv_push {nodes : List Node} {edges : List Edge}
    (hids : (nodes.map Node.id).Nodup) {st2 : SortState} {id : String} {node : Node}
    (hfind : nodes.find? (fun n => n.id == id) = some node)
    (hnvis : id ∉ st2.visited)
    (hdeps : ∀ e ∈ edges, e.target = id → e.source ∈ st2.visited)
    (hInv : SInv nodes edges st2) (vis' : List String) :
    SInv nodes edges ⟨st2.sorted ++ [node], id :: st2.visited, vis'⟩ := by
  have hnodemem : node ∈ nodes := List.mem_of_find?_eq_some hfind
  have hnodeid : node.id = id := by
    have := List.find?_some hfind
    simpa using this
  have hnotsorted : ∀ n ∈ st2.sorted, n.id ≠ id := by
    intro n hn hni
    exact hnvis (hni ▸ ((hInv.vis_iff n (hInv.mem n hn)).mpr hn))
  refine ⟨?_, ?_, ?_, ?_⟩
  · intro n hn
    rcases List.mem_append.mp hn with h | h
    · exact hInv.mem n h
    · rw [List.mem_singleton.mp h]; exact hnodemem
  · rw [List.map_append, List.map_singleton]
    rw [List.nodup_append]
    refine ⟨hInv.nodup, List.nodup_singleton _, ?_⟩
    intro x hx hx'
    rw [List.mem_singleton.mp hx'] at hx
    obtain ⟨n, hn, hni⟩ := List.mem_map.mp hx
    exact hnotsorted n hn (hni.trans hnodeid)
  · intro n hn
    constructor
    · intro hmem
      rcases List.mem_cons.mp hmem with h | h
      · have : n = node := id_inj nodes hids hn hnodemem (h.trans hnodeid.symm)
        rw [this]
        exact List.mem_append_right _ (List.mem_singleton_self _)
      · exact List.mem_append_left _ ((hInv.vis_iff n hn).mp h)
    · intro hmem
      rcases List.mem_append.mp hmem with h | h
      · exact List.mem_cons_of_mem _ ((hInv.vis_iff n hn).mpr h)
      · rw [List.mem_singleton.mp h, hnodeid]
        exact List.mem_cons_self _ _
  · intro e he t ht htid s hs hsid
    rcases List.mem_append.mp ht with h | h
    · exact Before_append node (hInv.order e he t h htid s hs hsid)
    · rw [List.mem_singleton.mp h] at htid ⊢
      have hsrc : e.source ∈ st2.visited := hdeps e he (htid.symm.trans hnodeid)
      have hsmem : s ∈ st2.sorted := (hInv.vis_iff s hs).mp (hsid ▸ hsrc)
      exact ⟨st2.sorted, [], rfl, hsmem⟩

theorem SInv_skip {nodes : List Node} {edges : List Edge}
    {st2 : SortState} {id : String}
    (hfind : nodes.find? (fun n => n.id == id) = none)
    (hInv : SInv nodes edges st2) (vis' : List String) :
    SInv nodes edges ⟨st2.sorted, id :: st2.visited, vis'⟩ := by
  have hno : ∀ n ∈ nodes, n.id ≠ id := by
    intro n hn
    have := List.find?_eq_none.mp hfind n hn
    simpa using this
  refine ⟨hInv.mem, hInv.nodup, ?_, hInv.order⟩
  intro n hn
  constructor
  · intro hmem
    rcases List.mem_cons.mp hmem with h | h
    · exact absurd h (hno n hn)
    · exact (hInv.vis_iff n hn).mp h
  · intro hmem
    exact List.mem_cons_of_mem _ ((hInv.vis_iff n hn).mpr hmem)

theorem visitList_post (nodes : List Node) (edges : List Edge)
    (dv : List String → SortState → Except SortErr SortState)
    (hdv : ∀ ids st st', dv ids st = .ok st' → SortPost nodes edges ids st st') :
    ∀ ids st st', visitList nodes edges dv ids st = .ok st' →
      SortPost nodes edges ids st st' := by
  intro ids
  induction ids with
  | nil =>
    intro st st' h
    rw [visitList] at h
    cases h
    exact ⟨rfl, fun x hx => hx, by simp, fun x hx => Or.inl hx, ⟨[], by simp⟩,
      fun _ hI => hI⟩
  | cons id rest ih =>
    intro st st' h
    rw [visitList] at h
    split at h
    · next hv =>
      have P := ih st st' h
      refine ⟨P.visiting_eq, P.visited_mono, ?_, P.visited_new, P.sorted_ext, P.inv⟩
      intro i hi
      rcases List.mem_cons.mp hi with rfl | hi'
      · exact P.visited_mono i hv
      · exact P.ids_visited i hi'
    · split at h
      · exact absurd h (by simp)
      · next hv1 hv2 =>
        split at h
        · exact absurd h (by simp)
        · next st2 hd =>
          have P1 := hdv _ _ _ hd
          have hvq : st2.visiting = id :: st.visiting := P1.visiting_eq
          have herase : st2.visiting.erase id = st.visiting := by
            rw [hvq]; exact List.erase_cons_head id st.visiting
          have hnvis2 : id ∉ st2.visited := by
            intro hmem
            rcases P1.visited_new id hmem with hx | hx
            · exact hv1 hx
            · exact hx (List.mem_cons_self id st.visiting)
          have hmono1 : ∀ x ∈ st.visited, x ∈ st2.visited := P1.visited_mono
          have hnew1 : ∀ x ∈ st2.visited, x ∈ st.visited ∨ x ∉ st.visiting := by
            intro x hx
            rcases P1.visited_new x hx with hy | hy
            · exact Or.inl hy
            · exact Or.inr fun hz => hy (List.mem_cons_of_mem id hz)
          have hdeps : ∀ e ∈ edges, e.target = id → e.source ∈ st2.visited := by
            intro e he het
            refine P1.ids_visited e.source ?_
            exact List.mem_map.mpr ⟨e, List.mem_filter.mpr ⟨he, by simp [het]⟩, rfl⟩
          split at h
          · next node hfind =>
            have P2 := ih _ _ h
            have hvq2 : st'.visiting = st2.visiting.erase id := P2.visiting_eq
            refine ⟨?_, ?_, ?_, ?_, ?_, ?_⟩
            · rw [hvq2, herase]
            · intro x hx
              exact P2.visited_mono x (List.mem_cons_of_mem id (hmono1 x hx))
            · intro i hi
              rcases List.mem_cons.mp hi with rfl | hi'
              · exact P2.visited_mono i (List.mem_cons_self i st2.visited)
              · exact P2.ids_visited i hi'
            · intro x hx
              rcases P2.visited_new x hx with hy | hy
              · rcases List.mem_cons.mp hy with rfl | hy'
                · exact Or.inr hv2
                · exact hnew1 x hy'
              · rw [herase] at hy
                exact Or.inr hy
            · obtain ⟨d1, hd1⟩ := P1.sorted_ext
              obtain ⟨d2, hd2⟩ := P2.sorted_ext
              refine ⟨d1 ++ [node] ++ d2, ?_⟩
              rw [hd2]
              show (st2.sorted ++ [node]) ++ d2 = _
              rw [hd1]
              show (st.sorted ++ d1 ++ [node]) ++ d2 = _
              simp [List.append_assoc]
            · intro hids hI
              have hI1 : SInv nodes edges { st with visiting := id :: st.visiting } :=
                ⟨hI.mem, hI.nodup, hI.vis_iff, hI.order⟩
              have hI2 := P1.inv hids hI1
              have hI3 := SInv_push hids hfind hnvis2 hdeps hI2 (st2.visiting.erase id)
              exact P2.inv hids hI3
          · next hfind =>
            have P2 := ih _ _ h
            have hvq2 : st'.visiting = st2.visiting.erase id := P2.visiting_eq
            refine ⟨?_, ?_, ?_, ?_, ?_, ?_⟩
            · rw [hvq2, herase]
            · intro x hx
              exact P2.visited_mono x (List.mem_cons_of_mem id (hmono1 x hx))
            · intro i hi
              rcases List.mem_cons.mp hi with rfl | hi'
              · exact P2.visited_mono i (List.mem_cons_self i st2.visited)
              · exact P2.ids_visited i hi'
            · intro x hx
              rcases P2.visited_new x hx with hy | hy
              · rcases List.mem_cons.mp hy with rfl | hy'
                · exact Or.inr hv2
                · exact hnew1 x hy'
              · rw [herase] at hy
                exact Or.inr hy
            · obtain ⟨d1, hd1⟩ := P1.sorted_ext
              obtain ⟨d2, hd2⟩ := P2.sorted_ext
              refine ⟨d1 ++ d2, ?_⟩
              rw [hd2]
              show st2.sorted ++ d2 = _
              rw [hd1]
              show (st.sorted ++ d1) ++ d2 = _
              rw [List.append_assoc]
            · intro hids hI
              have hI1 : SInv nodes edges { st with visiting := id :: st.visiting } :=
                ⟨hI.mem, hI.nodup, hI.vis_iff, hI.order⟩
              have hI2 := P1.inv hids hI1
              have hI3 := SInv_skip hfind hI2 (st2.visiting.erase id)
              exact P2.inv hids hI3

theorem visitAll_post (nodes : List Node) (edges : List Edge) :
    ∀ (fuel : Nat) (ids : List String) (st st' : SortState),
      visitAll nodes edges fuel ids st = .ok st' → SortPost nodes edges ids st st' := by
  intro fuel
  induction fuel with
  | zero =>
    exact visitList_post nodes edges _ (fun ids st st' h => absurd h (by simp))
  | succ f ih =>
    exact visitList_post nodes edges _ ih

theorem measure_cons {U visiting : List String} {id : String}
    (hU : id ∈ U) (hnv : id ∉ visiting) :
    (U.toFinset \ (id :: visiting).toFinset).card + 1 =
      (U.toFinset \ visiting.toFinset).card := by
  have hmem : id ∈ U.toFinset \ visiting.toFinset :=
    Finset.mem_sdiff.mpr ⟨List.mem_toFinset.mpr hU,
      fun hc => hnv (List.mem_toFinset.mp hc)⟩
  have hpos : 0 < (U.toFinset \ visiting.toFinset).card :=
    Finset.card_pos.mpr ⟨id, hmem⟩
  rw [List.toFinset_cons, Finset.sdiff_insert, Finset.card_erase_of_mem hmem]
  omega

theorem visitList_nf (nodes : List Node) (edges : List Edge) (U : List String)
    (hUe : ∀ e ∈ edges, e.source ∈ U)
    (dv : List String → SortState → Except SortErr SortState) (fuel : Nat)
    (hdvPost : ∀ ids st st', dv ids st = .ok st' → SortPost nodes edges ids st st')
    (hdv : ∀ ids st, (∀ i ∈ ids, i ∈ U) → (∀ v ∈ st.visiting, v ∈ U) →
      (U.toFinset \ st.visiting.toFinset).card < fuel → dv ids st ≠ .error .fuelOut) :
    ∀ ids st, (∀ i ∈ ids, i ∈ U) → (∀ v ∈ st.visiting, v ∈ U) →
      (U.toFinset \ st.visiting.toFinset).card < fuel + 1 →
      visitList nodes edges dv ids st ≠ .error .fuelOut := by
  intro ids
  induction ids with
  | nil =>
    intro st _ _ _
    rw [visitList]
    simp
  | cons id rest ih =>
    intro st hid hvis hcard
    rw [visitList]
    split
    · exact ih st (fun i hi => hid i (List.mem_cons_of_mem id hi)) hvis hcard
    · split
      · simp
      · next hv1 hv2 =>
        have hidU : id ∈ U := hid id (List.mem_cons_self id rest)
        have hvis1 : ∀ v ∈ (id :: st.visiting), v ∈ U := by
          intro v hv
          rcases List.mem_cons.mp hv with rfl | hv'
          · exact hidU
          · exact hvis v hv'
        have hcard1 : (U.toFinset \ (id :: st.visiting).toFinset).card < fuel := by
          have := measure_cons hidU hv2
          omega
        have hdeps : ∀ i ∈ ((edges.filter fun e => e.target == id).map
            fun e => e.source), i ∈ U := by
          intro i hi
          obtain ⟨e, he, rfl⟩ := List.mem_map.mp hi
          exact hUe e (List.mem_filter.mp he).1
        split
        · next e1 hd =>
          intro hcontra
          rw [Except.error.injEq] at hcontra
          rw [hcontra] at hd
          exact hdv _ _ hdeps hvis1 hcard1 hd
        · next st2 hd =>
          have P1 := hdvPost _ _ _ hd
          have hvq : st2.visiting = id :: st.visiting := P1.visiting_eq
          have herase : st2.visiting.erase id = st.visiting := by
            rw [hvq]; exact List.erase_cons_head id st.visiting
          split
          · next node hfind =>
            refine ih _ (fun i hi => hid i (List.mem_cons_of_mem id hi)) ?_ ?_
            · show ∀ v ∈ st2.visiting.erase id, v ∈ U
              rw [herase]; exact hvis
            · show (U.toFinset \ (st2.visiting.erase id).toFinset).card < fuel + 1
              rw [herase]; exact hcard
          · next hfind =>
            refine ih _ (fun i hi => hid i (List.mem_cons_of_mem id hi)) ?_ ?_
            · show ∀ v ∈ st2.visiting.erase id, v ∈ U
              rw [herase]; exact hvis
            · show (U.toFinset \ (st2.visiting.erase id).toFinset).card < fuel + 1
              rw [herase]; exact hcard

theorem visitAll_nf (nodes : List Node) (edges : List Edge) (U : List String)
    (hUe : ∀ e ∈ edges, e.source ∈ U) :
    ∀ (fuel : Nat) (ids : List String) (st : SortState),
      (∀ i ∈ ids, i ∈ U) → (∀ v ∈ st.visiting, v ∈ U) →
      (U.toFinset \ st.visiting.toFinset).card < fuel →
      visitAll nodes edges fuel ids st ≠ .error .fuelOut := by
  intro fuel
  induction fuel with
  | zero => intro ids st _ _ hcard; omega
  | succ f ih =>
    exact visitList_nf nodes edges U hUe _ f (visitAll_post nodes edges f) ih

theorem visitList_nc (nodes : List Node) (edges : List Edge)
    (hacyc : Acyclic edges)
    (dv : List String → SortState → Except SortErr SortState)
    (hdvPost : ∀ ids st st', dv ids st = .ok st' → SortPost nodes edges ids st st')
    (hdv : ∀ ids st, (∀ i ∈ ids, ∀ v ∈ st.visiting, Reach edges i v) →
      dv ids st ≠ .error .cycle) :
    ∀ ids st, (∀ i ∈ ids, ∀ v ∈ st.visiting, Reach edges i v) →
      visitList nodes edges dv ids st ≠ .error .cycle := by
  intro ids
  induction ids with
  | nil =>
    intro st _
    rw [visitList]
    simp
  | cons id rest ih =>
    intro st hreach
    rw [visitList]
    split
    · exact ih st fun i hi => hreach i (List.mem_cons_of_mem id hi)
    · split
      · next _ hv2 =>
        exact absurd (hreach id (List.mem_cons_self id rest) id hv2) (hacyc id)
      · next hv1 hv2 =>
        have hreach1 : ∀ i ∈ ((edges.filter fun e => e.target == id).map
            fun e => e.source), ∀ v ∈ (id :: st.visiting), Reach edges i v := by
          intro i hi v hv
          obtain ⟨e, he, rfl⟩ := List.mem_map.mp hi
          have hef := List.mem_filter.mp he
          have het : e.target = id := by simpa using hef.2
          rcases List.mem_cons.mp hv with rfl | hv'
          · exact het ▸ Reach.single hef.1
          · exact Reach.tail hef.1 (het ▸ hreach id (List.mem_cons_self id rest) v hv')
        split
        · next e1 hd =>
          intro hcontra
          rw [Except.error.injEq] at hcontra
          rw [hcontra] at hd
          exact hdv _ _ hreach1 hd
        · next st2 hd =>
          have P1 := hdvPost _ _ _ hd
          have hvq : st2.visiting = id :: st.visiting := P1.visiting_eq
          have herase : st2.visiting.erase id = st.visiting := by
            rw [hvq]; exact List.erase_cons_head id st.visiting
          split
          · next node hfind =>
            refine ih _ ?_
            intro i hi v hv
            refine hreach i (List.mem_cons_of_mem id hi) v ?_
            rw [herase] at hv
            exact hv
          · next hfind =>
            refine ih _ ?_
            intro i hi v hv
            refine hreach i (List.mem_cons_of_mem id hi) v ?_
            rw [herase] at hv
            exact hv

theorem visitAll_nc (nodes : List Node) (edges : List Edge)
    (hacyc : Acyclic edges) :
    ∀ (fuel : Nat) (ids : List String) (st : SortState),
      (∀ i ∈ ids, ∀ v ∈ st.visiting, Reach edges i v) →
      visitAll nodes edges fuel ids st ≠ .error .cycle := by
  intro fuel
  induction fuel with
  | zero =>
    exact visitList_nc nodes edges hacyc _
      (fun ids st st' h => absurd h (by simp))
      (fun ids st _ => by simp)
  | succ f ih =>
    exact visitList_nc nodes edges hacyc _ (visitAll_post nodes edges f) ih

theorem not_reach_nil (x y : String) : ¬ Reach [] x y := by
  intro h
  induction h <;> simp_all

theorem findIdx_append_lt {p : Node → Bool} :
    ∀ (l1 l2 : List Node) (a : Node), a ∈ l1 → p a = true →
      List.findIdx p (l1 ++ l2) < l1.length := by
  intro l1
  induction l1 with
  | nil => intro _ a ha _; cases ha
  | cons y t ih =>
    intro l2 a ha hp
    rw [List.cons_append, List.findIdx_cons]
    by_cases hy : p y
    · simp [hy]
    · have hy' : p y = false := by simpa using hy
      rcases List.mem_cons.mp ha with rfl | ha'
      · rw [hy'] at hp; cases hp
      · simp only [hy', cond_false, List.length_cons]
        exact Nat.succ_lt_succ (ih l2 a ha' hp)

theorem findIdx_append_head {p : Node → Bool} :
    ∀ (l1 : List Node) (b : Node) (l2 : List Node),
      (∀ x ∈ l1, p x = false) → p b = true →
      List.findIdx p (l1 ++ b :: l2) = l1.length := by
  intro l1
  induction l1 with
  | nil => intro b l2 _ hb; simp [List.findIdx_cons, hb]
  | cons y t ih =>
    intro b l2 hno hb
    have hy : p y = false := hno y (List.mem_cons_self y t)
    rw [List.cons_append, List.findIdx_cons, hy]
    simp only [cond_false, List.length_cons]
    rw [ih b l2 (fun x hx => hno x (List.mem_cons_of_mem y hx)) hb]

theorem before_posOf {l : List Node} (hnd : (l.map Node.id).Nodup) {a b : Node}
    (h : Before l a b) : posOf l a.id < posOf l b.id := by
  obtain ⟨l1, l2, rfl, ha⟩ := h
  have h1 : posOf (l1 ++ b :: l2) a.id < l1.length :=
    findIdx_append_lt l1 (b :: l2) a ha (by simp)
  have hbnin : b.id ∉ List.map Node.id l1 := by
    rw [List.map_append] at hnd
    have hdisj := (List.nodup_append.mp hnd).2.2
    intro hmem
    exact hdisj hmem (by simp)
  have hno : ∀ x ∈ l1, (fun n => n.id == b.id) x = false := by
    intro x hx
    by_contra hc
    have : x.id = b.id := by simpa using hc
    exact hbnin (this ▸ List.mem_map_of_mem Node.id hx)
  have h2 : posOf (l1 ++ b :: l2) b.id = l1.length :=
    findIdx_append_head l1 b l2 hno (by simp)
  unfold posOf at h1 h2 ⊢
  omega

theorem topoSort_ok_props (nodes : List Node) (edges : List Edge) (sorted : List Node)
    (hids : (nodes.map Node.id).Nodup)
    (h : topoSort nodes edges = .ok sorted) :
    (∀ n, n ∈ sorted ↔ n ∈ nodes) ∧ sorted.Nodup ∧
    (∀ e ∈ edges, ∀ s t : Node, s ∈ nodes → t ∈ nodes →
      s.id = e.source → t.id = e.target →
      posOf sorted e.source < posOf sorted e.target) := by
  unfold topoSort at h
  cases hres : visitAll nodes edges (nodes.length + edges.length + 1)
      (nodes.map fun n => n.id) ⟨[], [], []⟩ with
  | error e => rw [hres] at h; simp [Except.map] at h
  | ok stF =>
    rw [hres] at h
    simp only [Except.map, Except.ok.injEq] at h
    subst h
    have P := visitAll_post nodes edges _ _ _ _ hres
    have hI0 : SInv nodes edges ⟨[], [], []⟩ :=
      ⟨by simp, by simp, by simp, by simp⟩
    have hI := P.inv hids hI0
    have hcomplete : ∀ n ∈ nodes, n ∈ stF.sorted := by
      intro n hn
      exact (hI.vis_iff n hn).mp (P.ids_visited n.id (List.mem_map_of_mem _ hn))
    refine ⟨?_, ?_, ?_⟩
    · intro n
      exact ⟨fun hn => hI.mem n hn, fun hn => hcomplete n hn⟩
    · exact hI.nodup.of_map
    · intro e he s t hs ht hsid htid
      have hbef := hI.order e he t (hcomplete t ht) htid s hs hsid
      have hlt := before_posOf hI.nodup hbef
      rw [hsid, htid] at hlt
      exact hlt

/-- C1: for every acyclic snapshot with unique node ids, the depth-first
topological sort of `executeWorkflow` succeeds, every node of the graph
appears in the computed order exactly once (the order is duplicate-free and
has exactly the graph's nodes), and for every edge (s → t) whose endpoints
are nodes of the graph, s is placed at a strictly smaller index than t. -/
theorem c1_toposort_topological_order (nodes : List Node) (edges : List Edge)
    (hids : (nodes.map Node.id).Nodup) (hacyc : Acyclic edges) :
    ∃ sorted, topoSort nodes edges = .ok sorted ∧
      (∀ n, n ∈ sorted ↔ n ∈ nodes) ∧ sorted.Nodup ∧
      (∀ e ∈ edges, ∀ s t : Node, s ∈ nodes → t ∈ nodes →
        s.id = e.source → t.id = e.target →
        posOf sorted e.source < posOf sorted e.target) := by
  cases hres : visitAll nodes edges (nodes.length + edges.length + 1)
      (nodes.map fun n => n.id) ⟨[], [], []⟩ with
  | error e =>
    cases e with
    | cycle =>
      exact absurd hres (visitAll_nc nodes edges hacyc _ _ _ (by simp))
    | fuelOut =>
      refine absurd hres (visitAll_nf nodes edges
        (nodes.map Node.id ++ edges.map Edge.source) ?_ _ _ _ ?_ ?_ ?_)
      · intro e he
        exact List.mem_append_right _ (List.mem_map_of_mem _ he)
      · intro i hi
        exact List.mem_append_left _ hi
      · simp
      · have hle := List.toFinset_card_le (nodes.map Node.id ++ edges.map Edge.source)
        simp only [List.toFinset_nil, Finset.sdiff_empty]
        simp only [List.length_append, List.length_map] at hle
        omega
  | ok stF =>
    have hok : topoSort nodes edges = .ok stF.sorted := by
      unfold topoSort; rw [hres]; rfl
    exact ⟨stF.sorted, hok, topoSort_ok_props nodes edges stF.sorted hids hok⟩

/-- C1 (witness): the sort on a one-node, zero-edge snapshot. -/
theorem c1_toposort_topological_order_witness :
    ∃ sorted, topoSort [mkPrompt "n1" "x"] [] = .ok sorted ∧
      (∀ n, n ∈ sorted ↔ n ∈ [mkPrompt "n1" "x"]) ∧ sorted.Nodup ∧
      (∀ e ∈ ([] : List Edge), ∀ s t : Node, s ∈ [mkPrompt "n1" "x"] →
        t ∈ [mkPrompt "n1" "x"] → s.id = e.source → t.id = e.target →
        posOf sorted e.source < posOf sorted e.target) :=
  c1_toposort_topological_order [mkPrompt "n1" "x"] [] (by decide)
    (fun a => not_reach_nil a a)

/-- C2: a snapshot with unique node ids whose edges connect existing nodes
and contain a cycle makes `executeWorkflow` fail before executing any node:
the sort throws (topoSort returns the cycle error, landing in the top-level
catch), the whole run produces no events — no node is entered, no service is
called — and the store's nodes (hence every node's status) are exactly as
before the run; only the run flags are written. -/
theorem c2_cycle_fails_before_execution (env : Env) (sfn : Option String)
    (s : StoreState)
    (hids : (s.nodes.map Node.id).Nodup)
    (hwf : ∀ e ∈ s.edges, e.source ∈ s.nodes.map Node.id ∧
      e.target ∈ s.nodes.map Node.id)
    (hcyc : ∃ a, Reach s.edges a a)
    (hrun : s.isRunning = false) :
    topoSort s.nodes s.edges = .error .cycle ∧
    executeWorkflow env sfn s =
      ⟨{ s with isRunning := false, pausedAtNodeId := none, currentNodeId := none },
        [], 0⟩ := by
  have hcycerr : topoSort s.nodes s.edges = .error .cycle := by
    cases hres : visitAll s.nodes s.edges (s.nodes.length + s.edges.length + 1)
        (s.nodes.map fun n => n.id) ⟨[], [], []⟩ with
    | ok stF =>
      have hok : topoSort s.nodes s.edges = .ok stF.sorted := by
        unfold topoSort; rw [hres]; rfl
      have props := topoSort_ok_props s.nodes s.edges stF.sorted hids hok
      have hmono : ∀ x y, Reach s.edges x y →
          posOf stF.sorted x < posOf stF.sorted y := by
        intro x y hxy
        induction hxy with
        | single he =>
          next e =>
          obtain ⟨sN, hsN, hsid⟩ := List.mem_map.mp (hwf e he).1
          obtain ⟨tN, htN, htid⟩ := List.mem_map.mp (hwf e he).2
          exact props.2.2 e he sN tN hsN htN hsid htid
        | tail he hr ih =>
          next e c =>
          obtain ⟨sN, hsN, hsid⟩ := List.mem_map.mp (hwf e he).1
          obtain ⟨tN, htN, htid⟩ := List.mem_map.mp (hwf e he).2
          exact Nat.lt_trans
            (props.2.2 e he sN tN hsN htN hsid htid) ih
      obtain ⟨a, ha⟩ := hcyc
      exact absurd (hmono a a ha) (Nat.lt_irrefl _)
    | error e =>
      cases e with
      | cycle => unfold topoSort; rw [hres]; rfl
      | fuelOut =>
        refine absurd hres (visitAll_nf s.nodes s.edges
          (s.nodes.map Node.id ++ s.edges.map Edge.source) ?_ _ _ _ ?_ ?_ ?_)
        · intro e he
          exact List.mem_append_right _ (List.mem_map_of_mem _ he)
        · intro i hi
          exact List.mem_append_left _ hi
        · simp
        · have hle := List.toFinset_card_le
            (s.nodes.map Node.id ++ s.edges.map Edge.source)
          simp only [List.toFinset_nil, Finset.sdiff_empty]
          simp only [List.length_append, List.length_map] at hle
          omega
  refine ⟨hcycerr, ?_⟩
  unfold executeWorkflow
  rw [if_neg (by simp [hrun])]
  dsimp only
  rw [hcycerr]

/-- C2 (witness): a two-node snapshot with a two-edge cycle. -/
theorem c2_cycle_fails_before_execution_witness :
    topoSort [mkPrompt "x" "a", mkPrompt "y" "b"]
        [mkEdge "x" "y" (some "text"), mkEdge "y" "x" (some "text")] =
      .error .cycle ∧
    executeWorkflow (constEnv (ApiResult.json true (some "i") none)) none
        { nodes := [mkPrompt "x" "a", mkPrompt "y" "b"]
          edges := [mkEdge "x" "y" (some "text"), mkEdge "y" "x" (some "text")] } =
      ⟨{ nodes := [mkPrompt "x" "a", mkPrompt "y" "b"]
         edges := [mkEdge "x" "y" (some "text"), mkEdge "y" "x" (some "text")]
         isRunning := false
         pausedAtNodeId := none
         currentNodeId := none }, [], 0⟩ :=
  c2_cycle_fails_before_execution (constEnv (ApiResult.json true (some "i") none))
    none
    { nodes := [mkPrompt "x" "a", mkPrompt "y" "b"]
      edges := [mkEdge "x" "y" (some "text"), mkEdge "y" "x" (some "text")] }
    (by decide) (by decide)
    ⟨"x", Reach.tail (e := mkEdge "x" "y" (some "text")) (by simp)
      (Reach.single (e := mkEdge "y" "x" (some "text")) (by simp))⟩
    rfl

end NodeBanana
